import Mathlib

/-!
A verification development for rusty_scheme's memory manager
(`src/alloc.rs`): the two-semispace heap, the Cheney-style copying
collector (`relocate`, `scavange_stack`, `scavange_heap`, `collect`) and
the allocation operations (`alloc_pair`, `alloc_vector`).

Modelling conventions:

* A machine word (`Value`) is a `Nat`.  Addresses are modelled as word
  offsets into the semispace the collector interprets them in: a
  pointer-tagged word `8 * i + tag` addresses word `i` of the arena
  (the design notes of the reimplementation spec explicitly sanction an
  index/offset-based arena standing in for raw addresses; the low three
  bits carry the tag exactly as in the source, since objects are
  allocated on an 8-word-aligned... 8-byte-aligned boundary).
* `Vec<Value>` is modelled as a list of words plus a capacity.  Capacity
  growth follows Rust's `RawVec::grow_amortized`: when `len + additional`
  exceeds the capacity the new capacity is
  `max (max (2 * cap) (len + additional)) 4` (4 is the minimal non-zero
  capacity for 8-byte elements).
* The release build is modelled: `debug_assert!` and the debug-only
  `consistency_check` are no-ops, while `assert!` (in `scavange_heap`)
  panics.  Panics and the bounded-fuel scan loop are modelled by
  `Option`: `none` means the collection did not complete normally.
* Raw reads beyond the length of an arena (which in the source read
  uninitialized spare capacity) are modelled as reading `0`; raw writes
  beyond the length are modelled as no-ops.  All theorems about
  well-formed states stay inside the bounds, where the model is exact.

The `value` module of the repository (tags, headers, `size()`, `leafp()`)
is not part of the given sources; the constants and decoders below are
modelled from the spec, constrained by how `alloc.rs` itself uses them.
-/

/-- Modelled from the spec: the missing `value` module's `HEADER_TAG`.
A word-sized header whose low 61 bits are the word-count; the top bits
are a type marker.  The reserved forwarding sentinel is the bare marker
mask itself, "never a legal size" because its size field is zero. -/
def HEADER_TAG : Nat := 7 * 2 ^ 61

/-- Modelled from the spec: the missing `value` module's `PAIR_HEADER`,
a fixed constant header whose word-count field is 3 (header, car, cdr). -/
def PAIR_HEADER : Nat := 2 ^ 61 + 3

/-- Modelled from the spec: the missing `value` module's `VECTOR_HEADER`,
a type marker with clear low bits so the element count can be or-ed in. -/
def VECTOR_HEADER : Nat := 2 * 2 ^ 61

/-- Modelled from the spec: a header type marker for a leaf (childless)
heap object, e.g. boxed raw host data, which the scavenger must skip. -/
def RUSTDATA_HEADER : Nat := 3 * 2 ^ 61

/-- Modelled from the spec: the missing `value` module's `SIZEOF_PAIR`
(3 words: header, car, cdr). -/
def SIZEOF_PAIR : Nat := 3

/-- Modelled from the spec: the low-bits pointer tag of a pair value.
The debug consistency check in `alloc.rs` pins it: pair-tagged values
have all three tag bits set. -/
def PAIR_TAG : Nat := 7

/-- Modelled from the spec: the low-bits pointer tag of a vector value
(any tag distinct from the pair tag and from the immediate-number tags
works; the exact numeral is a modelling choice). -/
def VECTOR_TAG : Nat := 6

/-- The word-count field of an object header: `contents & !HEADER_TAG`,
i.e. the low 61 bits. -/
def sizeField (w : Nat) : Nat := w % 2 ^ 61

/-- The low-bits tag of a value (`tag()` of the missing `value` module,
modelled from the spec: the discriminant lives in the low three bits). -/
def tag (v : Nat) : Nat := v % 8

/-- The word offset addressed by a pointer-tagged value
(`Ptr_Val!`: the address with the tag bits masked off, divided by the
word size). -/
def ptrIdx (v : Nat) : Nat := v / 8

/-- Modelled from the spec: which tags are heap pointers for the two
object kinds `alloc.rs` can allocate.  Immediate numbers (`Num`,
`Num2`) and the remaining tags are treated as leaf values with no
heap target; only pair- and vector-tagged words are dereferenced. -/
def isPtrTag (t : Nat) : Bool := t == VECTOR_TAG || t == PAIR_TAG

/-- Modelled from the spec: `leafp()` — whether the object's payload
words contain no child Values.  On a header word this is decided by the
type marker: pair and vector objects are non-leaf (the repository's own
test requires pair payloads to be scavenged), raw-data objects are
leaf. -/
def leafp (w : Nat) : Bool := !(w / 2 ^ 61 == 1 || w / 2 ^ 61 == 2)

/-- Modelled from the spec: `size()` — `none` for immediates and other
leaf values, otherwise the word-count field of the header the pointer
addresses (read from the arena `f` the pointer points into). -/
def valueSize (f : List Nat) (v : Nat) : Option Nat :=
  if isPtrTag (tag v) then some (sizeField (f.getD (ptrIdx v) 0)) else none

/-- The word span copied for an object of header word-count `size`:
`((size * size_of::<Value>() + 0b111) & !0b111) / size_of::<Value>()`
with 8-byte words. -/
def amountToCopy (size : Nat) : Nat := (size * 8 + 7) / 8 * 8 / 8

/-- Rust `Vec` capacity growth (`RawVec::grow_amortized`) for 8-byte
elements: grow only when `len + additional` exceeds the capacity. -/
def growAmortized (cap len additional : Nat) : Nat :=
  if len + additional ≤ cap then cap
  else max (max (2 * cap) (len + additional)) 4

/-- A `Vec<Value>`: contents plus capacity. -/
structure Vec where
  data : List Nat
  cap : Nat
deriving DecidableEq, Repr

/-- `Vec::push`. -/
def Vec.push (v : Vec) (x : Nat) : Vec :=
  ⟨v.data ++ [x], growAmortized v.cap v.data.length 1⟩

/-- `Vec::extend` from a slice (reserves once, then appends). -/
def Vec.extend (v : Vec) (xs : List Nat) : Vec :=
  ⟨v.data ++ xs, growAmortized v.cap v.data.length xs.length⟩

/-- The collector's working state during one cycle: the growing tospace
(data and capacity) and the fromspace contents being vacated. -/
structure GC where
  t : List Nat
  tcap : Nat
  f : List Nat
deriving DecidableEq, Repr

/-- `relocate` from `alloc.rs`: the atomic unit of a collection cycle.
Immediates are returned unchanged.  A pointer to an already-forwarded
object (source header equals the sentinel) is replaced by the Value
stored in the following word.  Otherwise the object's alignment-rounded
word span is appended to the tospace tail (read from the unmodified
source), then the source header is overwritten with the sentinel, the
new tagged tospace address (tail offset with the original tag bits) is
stored in the word after the source header, and that address is the
relocated value. -/
def relocate (cur : Nat) (g : GC) : Nat × GC :=
  match valueSize g.f cur with
  | none => (cur, g)
  | some size =>
    let p := ptrIdx cur
    if g.f.getD p 0 = HEADER_TAG then
      (g.f.getD (p + 1) 0, g)
    else
      let len := g.t.length
      let amount := amountToCopy size
      let copied := (g.f.drop p ++ List.replicate amount 0).take amount
      let newv := 8 * len + tag cur
      (newv,
       ⟨g.t ++ copied,
        growAmortized g.tcap len amount,
        (g.f.set p HEADER_TAG).set (p + 1) newv⟩)

/-- `scavange_stack` from `alloc.rs`: relocate every Value on the stack,
in place, in stack order. -/
def scavange_stack : List Nat → GC → List Nat × GC
  | [], g => ([], g)
  | v :: rest, g =>
    let r := relocate v g
    let r2 := scavange_stack rest r.2
    (r.1 :: r2.1, r2.2)

/-- The inner loop of `scavange_heap`: `for _ in 1..size` — relocate the
word at the scan position and advance, `n` times. -/
def relocateChildren : Nat → Nat → GC → GC
  | 0, _, g => g
  | n + 1, pos, g =>
    let r := relocate (g.t.getD pos 0) g
    relocateChildren n (pos + 1) ⟨r.2.t.set pos r.1, r.2.tcap, r.2.f⟩

/-- `scavange_heap` from `alloc.rs`, with an explicit fuel bound on the
number of loop iterations (the source's `while offset < tospace.len()`).
Returns `none` when the `assert!(size > 0)` would panic or the fuel runs
out.  Note two faithful renderings of the source: the leaf test reads
the word at offset 0 of tospace (`(*current).leafp()`, where `current`
is the base pointer), and a leaf step advances the scan position by one
word only. -/
def scavange_heap : Nat → Nat → GC → Option GC
  | 0, offset, g => if g.t.length ≤ offset then some g else none
  | fuel + 1, offset, g =>
    if g.t.length ≤ offset then some g
    else
      let size := sizeField (g.t.getD offset 0)
      if size = 0 then none
      else if leafp (g.t.getD 0 0) then scavange_heap fuel (offset + 1) g
      else scavange_heap fuel (offset + size) (relocateChildren (size - 1) (offset + 1) g)

/-- The heap: tospace, fromspace and the stack of GC roots. -/
structure Heap where
  tospace : Vec
  fromspace : Vec
  stack : Vec
deriving DecidableEq, Repr

/-- `Heap::new(size)`: two arenas of `size` words each and an empty
stack with a generous pre-reserved capacity (`1 << 16`). -/
def Heap.new (size : Nat) : Heap :=
  ⟨⟨[], size⟩, ⟨[], size⟩, ⟨[], 2 ^ 16⟩⟩

/-- `collect` from `alloc.rs`: swap the semispaces, reserve
`len + len / 2` words in the (emptied) new tospace, scavenge the stack,
then scavenge the growing tospace, and finally discard the fromspace
contents.  `none` models a panic or exhausted scan fuel. -/
def collect (h : Heap) : Option Heap :=
  let f := h.tospace
  let cap1 := growAmortized h.fromspace.cap h.fromspace.data.length
      (f.data.length + f.data.length / 2)
  let r := scavange_stack h.stack.data ⟨[], cap1, f.data⟩
  match scavange_heap (r.2.t.length + r.2.f.length + 1) 0 r.2 with
  | none => none
  | some g => some ⟨⟨g.t, g.tcap⟩, ⟨[], f.cap⟩, ⟨r.1, h.stack.cap⟩⟩

/-- `Heap::alloc_pair` from `alloc.rs`: if the free space in tospace is
below `SIZEOF_PAIR`, collect first; push the pair header, the car and
the cdr; push onto the stack the tagged address of the header. -/
def alloc_pair (h : Heap) (car cdr : Nat) : Option Heap :=
  let space := h.tospace.cap - h.tospace.data.length
  let go : Heap → Heap := fun h1 =>
    let t3 := ((h1.tospace.push PAIR_HEADER).push car).push cdr
    let len := t3.data.length - 3
    let newv := 8 * len + PAIR_TAG
    { h1 with tospace := t3, stack := h1.stack.push newv }
  if space < SIZEOF_PAIR then (collect h).map go else some (go h)

/-- `Heap::alloc_vector` from `alloc.rs`: if the free space in tospace
is below the element count rounded up to the alignment unit, collect
first; push a header word or-ing the element count into
`VECTOR_HEADER`, compute the result as the base address offset by
`elements.len()` words (exactly as the source does), extend with the
elements and push the tagged result onto the stack. -/
def alloc_vector (h : Heap) (elements : List Nat) : Option Heap :=
  let len := elements.length
  let space := h.tospace.cap - h.tospace.data.length
  let go : Heap → Heap := fun h1 =>
    let t1 := h1.tospace.push (VECTOR_HEADER + len)
    let ptr := 8 * len + VECTOR_TAG
    let t2 := t1.extend elements
    { h1 with tospace := t2, stack := h1.stack.push ptr }
  if space < (len + 7) / 8 * 8 then (collect h).map go else some (go h)

/-- The car (= cdr) value of the `i`-th pair in the chained-pair test
scenario: the first pair holds immediate zeros, and every later pair
holds the pair-tagged pointer to its predecessor's header (word offset
`3 * (i - 1)` of tospace). -/
def chainCar : Nat → Nat
  | 0 => 0
  | i + 1 => 8 * (3 * i) + PAIR_TAG

/-- The tospace contents after allocating `k` chained pairs: `k`
three-word objects `[PAIR_HEADER, chainCar i, chainCar i]`. -/
def chainData : Nat → List Nat
  | 0 => []
  | k + 1 => chainData k ++ [PAIR_HEADER, chainCar k, chainCar k]

/-- The stack contents after allocating `k` chained pairs: the tagged
pointers to the `k` pair headers, in allocation order. -/
def chainPtrs : Nat → List Nat
  | 0 => []
  | k + 1 => chainPtrs k ++ [8 * (3 * k) + PAIR_TAG]

/-- The fromspace contents after the stack scavenge of a collection of
`k` chained pairs: every object stamped with the forwarding sentinel
and the forwarded address (which equals the old address, since the
pairs are copied in allocation order), the cdr word left in place. -/
def fwdData : Nat → List Nat
  | 0 => []
  | k + 1 => fwdData k ++ [HEADER_TAG, 8 * (3 * k) + PAIR_TAG, chainCar k]

/-- The segment of `chainData` covering objects `i, i+1, …, i+m-1`. -/
def chainDataFrom : Nat → Nat → List Nat
  | _, 0 => []
  | i, m + 1 =>
    PAIR_HEADER :: chainCar i :: chainCar i :: chainDataFrom (i + 1) m

/-- The segment of `chainPtrs` covering objects `i, i+1, …, i+m-1`. -/
def chainPtrsFrom : Nat → Nat → List Nat
  | _, 0 => []
  | i, m + 1 => (8 * (3 * i) + PAIR_TAG) :: chainPtrsFrom (i + 1) m

/-- The segment of `fwdData` covering objects `j, j+1, …, j+m-1`. -/
def fwdDataFrom : Nat → Nat → List Nat
  | _, 0 => []
  | j, m + 1 =>
    HEADER_TAG :: (8 * (3 * j) + PAIR_TAG) :: chainCar j :: fwdDataFrom (j + 1) m

/-- One step of the chained-pair scenario: allocate a pair whose car
and cdr are both the current top of the stack (the previous pair). -/
def chainStep (h : Heap) : Option Heap :=
  alloc_pair h (h.stack.data.getLastD 0) (h.stack.data.getLastD 0)

/-- The chained-pair scenario: allocate one pair of immediate zeros on
a fresh heap of per-semispace capacity `cap`, then `n` times allocate a
pair whose car and cdr are the previous pair. -/
def chainHeap (cap : Nat) : Nat → Option Heap
  | 0 => alloc_pair (Heap.new cap) 0 0
  | n + 1 => (chainHeap cap n).bind chainStep

/-! ## General-purpose list helpers -/

theorem set_getD_self (l : List Nat) (n : Nat) : l.set n (l.getD n 0) = l := by
  induction l generalizing n with
  | nil => simp
  | cons a t ih => cases n with
    | zero => simp [List.getD]
    | succ m => simpa [List.getD] using ih m

theorem getD_append_len (A B : List Nat) (m : Nat) :
    (A ++ B).getD (A.length + m) 0 = B.getD m 0 := by
  induction A with
  | nil => simp
  | cons a t ih => simpa [Nat.succ_add] using ih

theorem set_append_len (A B : List Nat) (m : Nat) (x : Nat) :
    (A ++ B).set (A.length + m) x = A ++ B.set m x := by
  induction A with
  | nil => simp
  | cons a t ih => simp [Nat.succ_add, ih]

/-! ## Capacity and length facts -/

theorem growAmortized_le (cap len a : Nat) : cap ≤ growAmortized cap len a := by
  unfold growAmortized
  split
  · exact Nat.le_refl _
  · exact le_trans (Nat.le_mul_of_pos_left cap (by norm_num))
      (le_trans (le_max_left _ _) (le_max_left _ _))

theorem add_le_growAmortized (cap len a : Nat) : len + a ≤ growAmortized cap len a := by
  unfold growAmortized
  split
  · assumption
  · exact le_trans (le_max_right _ _) (le_max_left _ _)

theorem relocate_tcap_mono (cur : Nat) (g : GC) : g.tcap ≤ (relocate cur g).2.tcap := by
  unfold relocate
  rcases hv : valueSize g.f cur with _ | s
  · simp
  · simp only
    split
    · simp
    · simpa using growAmortized_le _ _ _

theorem scavange_stack_tcap_mono (l : List Nat) (g : GC) :
    g.tcap ≤ (scavange_stack l g).2.tcap := by
  induction l generalizing g with
  | nil => simp [scavange_stack]
  | cons v rest ih =>
    exact le_trans (relocate_tcap_mono v g) (ih _)

theorem relocateChildren_tcap_mono (n pos : Nat) (g : GC) :
    g.tcap ≤ (relocateChildren n pos g).tcap := by
  induction n generalizing pos g with
  | zero => simp [relocateChildren]
  | succ m ih =>
    unfold relocateChildren
    refine le_trans (relocate_tcap_mono (g.t.getD pos 0) g) ?_
    exact ih (pos + 1)
      ⟨(relocate (g.t.getD pos 0) g).2.t.set pos (relocate (g.t.getD pos 0) g).1,
       (relocate (g.t.getD pos 0) g).2.tcap, (relocate (g.t.getD pos 0) g).2.f⟩

theorem scavange_heap_tcap_mono (fuel offset : Nat) (g g' : GC)
    (h : scavange_heap fuel offset g = some g') : g.tcap ≤ g'.tcap := by
  induction fuel generalizing offset g with
  | zero =>
    unfold scavange_heap at h
    split at h
    · cases h; exact Nat.le_refl _
    · cases h
  | succ m ih =>
    unfold scavange_heap at h
    split at h
    · cases h; exact Nat.le_refl _
    · dsimp only at h
      split at h
      · cases h
      · split at h
        · exact ih _ _ h
        · exact le_trans (relocateChildren_tcap_mono _ _ _) (ih _ _ h)

theorem scavange_stack_length (l : List Nat) (g : GC) :
    (scavange_stack l g).1.length = l.length := by
  induction l generalizing g with
  | nil => simp [scavange_stack]
  | cons v rest ih => simp [scavange_stack, ih]

/-! ## Characterizations of `relocate` -/

/-- A value that is not pointer-tagged is left unchanged and the cycle
state is untouched. -/
theorem relocate_not_ptr (cur : Nat) (g : GC) (h : isPtrTag (tag cur) = false) :
    relocate cur g = (cur, g) := by
  simp [relocate, valueSize, h]

/-- Relocating a reference to an already-forwarded object (source
header equals the sentinel) yields the Value stored in the word after
the source header and leaves the cycle state untouched. -/
theorem relocate_forwarded (cur : Nat) (g : GC) (h1 : isPtrTag (tag cur) = true)
    (h2 : g.f.getD (ptrIdx cur) 0 = HEADER_TAG) :
    relocate cur g = (g.f.getD (ptrIdx cur + 1) 0, g) := by
  unfold relocate valueSize
  rw [h1]
  simp only [ite_true]
  rw [if_pos h2]

/-- Relocating a pointer to a not-yet-moved object: the rounded span is
appended to the tospace tail, read from the unmodified source; then the
source header becomes the sentinel, the new tagged address is stored in
the following word, and that address is the result. -/
theorem relocate_copy (cur : Nat) (g : GC) (h1 : isPtrTag (tag cur) = true)
    (h2 : g.f.getD (ptrIdx cur) 0 ≠ HEADER_TAG) :
    relocate cur g =
      (8 * g.t.length + tag cur,
       ⟨g.t ++ (g.f.drop (ptrIdx cur) ++
           List.replicate (amountToCopy (sizeField (g.f.getD (ptrIdx cur) 0))) 0).take
           (amountToCopy (sizeField (g.f.getD (ptrIdx cur) 0))),
        growAmortized g.tcap g.t.length (amountToCopy (sizeField (g.f.getD (ptrIdx cur) 0))),
        (g.f.set (ptrIdx cur) HEADER_TAG).set (ptrIdx cur + 1)
          (8 * g.t.length + tag cur)⟩) := by
  unfold relocate valueSize
  rw [h1]
  simp only [ite_true]
  rw [if_neg h2]

/-! ## Characterizations of the allocation paths -/

/-- When the free space in tospace is at least `SIZEOF_PAIR`,
`alloc_pair` takes the bump-allocation branch: the three pair words are
appended at the tail and one tagged pointer to the header is pushed. -/
theorem alloc_pair_no_collect (h : Heap) (car cdr : Nat)
    (h3 : SIZEOF_PAIR ≤ h.tospace.cap - h.tospace.data.length) :
    alloc_pair h car cdr =
      some ⟨⟨h.tospace.data ++ [PAIR_HEADER, car, cdr],
             (((h.tospace.push PAIR_HEADER).push car).push cdr).cap⟩,
            h.fromspace,
            ⟨h.stack.data ++ [8 * h.tospace.data.length + PAIR_TAG],
             (h.stack.push 0).cap⟩⟩ := by
  unfold alloc_pair
  rw [if_neg (by omega)]
  simp [Vec.push]

/-- When the free space is below `SIZEOF_PAIR` and the collection
completes, `alloc_pair` performs the same three pushes on the collected
heap. -/
theorem alloc_pair_after_collect (h h1 : Heap) (car cdr : Nat)
    (h3 : h.tospace.cap - h.tospace.data.length < SIZEOF_PAIR)
    (hc : collect h = some h1) :
    alloc_pair h car cdr =
      some ⟨⟨h1.tospace.data ++ [PAIR_HEADER, car, cdr],
             (((h1.tospace.push PAIR_HEADER).push car).push cdr).cap⟩,
            h1.fromspace,
            ⟨h1.stack.data ++ [8 * h1.tospace.data.length + PAIR_TAG],
             (h1.stack.push 0).cap⟩⟩ := by
  unfold alloc_pair
  rw [if_pos (by omega), hc]
  simp [Vec.push]

/-- Collecting a heap whose stack is empty copies nothing: the new
tospace is empty and the fromspace is discarded. -/
theorem collect_empty_stack (h : Heap) (hs : h.stack.data = []) :
    collect h = some ⟨⟨[], growAmortized h.fromspace.cap h.fromspace.data.length
        (h.tospace.data.length + h.tospace.data.length / 2)⟩,
      ⟨[], h.tospace.cap⟩, ⟨[], h.stack.cap⟩⟩ := by
  simp [collect, hs, scavange_stack, scavange_heap]

/-! ## Claim C2: collecting with an empty stack empties tospace -/

/-- C2: for every heap whose Stack is empty, `collect` completes and the
resulting tospace length is exactly 0 (nothing is reachable, nothing is
copied). -/
theorem claimC2 (h : Heap) (hs : h.stack.data = []) :
    ∃ h', collect h = some h' ∧ h'.tospace.data = [] :=
  ⟨_, collect_empty_stack h hs, rfl⟩

/-- C2 witness: a freshly constructed heap has an empty stack, and
collecting it leaves an empty tospace. -/
theorem claimC2_witness :
    (Heap.new 16).stack.data = [] ∧
    ∃ h', collect (Heap.new 16) = some h' ∧ h'.tospace.data = [] :=
  ⟨rfl, claimC2 (Heap.new 16) rfl⟩

/-! ## Claim C10: collect preserves the stack length and empties fromspace -/

/-- C10: whenever `collect` completes, the Stack's length is unchanged
(the stack scavenge rewrites entries in place) and the fromspace length
is 0 (its contents are discarded in one step at the end of the cycle). -/
theorem claimC10 (h h' : Heap) (hc : collect h = some h') :
    h'.stack.data.length = h.stack.data.length ∧ h'.fromspace.data = [] := by
  simp only [collect] at hc
  split at hc
  · cases hc
  · cases hc
    exact ⟨scavange_stack_length _ _, rfl⟩

/-- C10 witness: collecting a fresh heap keeps the (empty) stack length
and leaves an empty fromspace. -/
theorem claimC10_witness :
    collect (Heap.new 16) = some ⟨⟨[], 16⟩, ⟨[], 16⟩, ⟨[], 2 ^ 16⟩⟩ ∧
    ((⟨⟨[], 16⟩, ⟨[], 16⟩, ⟨[], 2 ^ 16⟩⟩ : Heap).stack.data.length =
        (Heap.new 16).stack.data.length ∧
     (⟨⟨[], 16⟩, ⟨[], 16⟩, ⟨[], 2 ^ 16⟩⟩ : Heap).fromspace.data = []) :=
  ⟨by decide, claimC10 (Heap.new 16) _ (by decide)⟩

/-! ## Claim C1: dangling reference reachable through the public API -/

/-- C1 (evaluation at the failing input): allocating an empty vector on
a fresh 16-word heap and then collecting completes normally, yet leaves
a pointer-tagged Value on the Stack whose target offset is not within
the bounds of the (empty) tospace — the invariant of the claim is
violated by the code. -/
theorem claimC1_eval :
    (alloc_vector (Heap.new 16) []).bind collect =
      some ⟨⟨[], 16⟩, ⟨[], 16⟩, ⟨[6], 2 ^ 16⟩⟩ ∧
    isPtrTag (tag 6) = true ∧
    ¬ ptrIdx 6 < (⟨[], 16⟩ : Vec).data.length := by decide

/-! ## Claim C4: the heap scavenge's leaf handling -/

/-- C4 (evaluation at the failing input): a tospace whose first object
is a leaf (raw-data) object of two words followed by a non-leaf pair
whose car points at an un-moved fromspace pair.  The spec's scavenge
would skip the leaf object whole and relocate the pair's children; the
code instead reads the leafness of the word at offset 0 for every scan
position and advances one word per leaf step, misparses the payload as
headers, never relocates the pair's children, and finally hits the
`assert!(size > 0)` panic (modelled as `none`). -/
theorem claimC4_eval :
    leafp (RUSTDATA_HEADER + 2) = true ∧
    leafp PAIR_HEADER = false ∧
    isPtrTag (tag 7) = true ∧
    scavange_heap 20 0
        ⟨[RUSTDATA_HEADER + 2, 42, PAIR_HEADER, 7, 0], 16, [PAIR_HEADER, 0, 0]⟩ =
      none := by decide

/-! ## Claim C8: alloc_vector's result pointer -/

/-- C8 (evaluation at the failing input): after one pair (tospace words
0..2), `alloc_vector(&[ZERO])` writes its header at word offset 3 but
pushes the tagged address `8 * 1 + VECTOR_TAG`, computed from
`elements.len()`, which addresses word offset 1 (the pair's car), not
the newly written header. -/
theorem claimC8_eval :
    (alloc_pair (Heap.new 16) 0 0).bind (fun h1 => alloc_vector h1 [0]) =
      some ⟨⟨[PAIR_HEADER, 0, 0, VECTOR_HEADER + 1, 0], 16⟩, ⟨[], 16⟩,
            ⟨[7, 8 * 1 + VECTOR_TAG], 2 ^ 16⟩⟩ ∧
    [PAIR_HEADER, 0, 0, VECTOR_HEADER + 1, 0].getD 3 0 = VECTOR_HEADER + 1 ∧
    ptrIdx (8 * 1 + VECTOR_TAG) = 1 ∧
    [PAIR_HEADER, 0, 0, VECTOR_HEADER + 1, 0].getD (ptrIdx (8 * 1 + VECTOR_TAG)) 0 ≠
      VECTOR_HEADER + 1 := by decide

/-! ## Claim C7: the growth policy -/

/-- C7 counterexample: on a heap built with `Heap::new(2)` and one
`alloc_pair`, an explicit collection completes with 3 surviving words
but a tospace capacity of only 4, and `4 < 1.5 × 3` (that is,
`2 * 4 < 3 * 3`): the post-collection capacity is **not** at least 1.5
times the surviving word count. -/
theorem claimC7_counterexample :
    alloc_pair (Heap.new 2) 0 0 =
      some ⟨⟨[PAIR_HEADER, 0, 0], 4⟩, ⟨[], 2⟩, ⟨[7], 2 ^ 16⟩⟩ ∧
    collect ⟨⟨[PAIR_HEADER, 0, 0], 4⟩, ⟨[], 2⟩, ⟨[7], 2 ^ 16⟩⟩ =
      some ⟨⟨[PAIR_HEADER, 0, 0], 4⟩, ⟨[], 4⟩, ⟨[7], 2 ^ 16⟩⟩ ∧
    2 * (⟨⟨[PAIR_HEADER, 0, 0], 4⟩, ⟨[], 4⟩, ⟨[7], 2 ^ 16⟩⟩ : Heap).tospace.cap <
      3 * (⟨⟨[PAIR_HEADER, 0, 0], 4⟩, ⟨[], 4⟩, ⟨[7], 2 ^ 16⟩⟩ : Heap).tospace.data.length := by
  decide

/-- C7 as amended: whenever `collect` completes, the new tospace
capacity is at least `L + L / 2` (integer arithmetic) where `L` is the
occupancy of the new fromspace, i.e. the pre-collection tospace length
— the floor of 1.5 times the occupancy, which is an upper bound for the
surviving words, rather than the real-valued 1.5 times the survivors. -/
theorem claimC7 (h h' : Heap) (hc : collect h = some h') :
    h.tospace.data.length + h.tospace.data.length / 2 ≤ h'.tospace.cap := by
  simp only [collect] at hc
  split at hc
  · cases hc
  · cases hc
    refine le_trans ?_ (le_trans (scavange_stack_tcap_mono h.stack.data _)
      (scavange_heap_tcap_mono _ _ _ _ (by assumption)))
    exact le_trans (Nat.le_add_left _ _) (add_le_growAmortized _ _ _)

/-- C7 witness: the amended bound evaluated on a concrete completed
collection. -/
theorem claimC7_witness :
    collect ⟨⟨[PAIR_HEADER, 0, 0], 4⟩, ⟨[], 2⟩, ⟨[7], 2 ^ 16⟩⟩ =
      some ⟨⟨[PAIR_HEADER, 0, 0], 4⟩, ⟨[], 4⟩, ⟨[7], 2 ^ 16⟩⟩ ∧
    (⟨⟨[PAIR_HEADER, 0, 0], 4⟩, ⟨[], 2⟩, ⟨[7], 2 ^ 16⟩⟩ : Heap).tospace.data.length +
        (⟨⟨[PAIR_HEADER, 0, 0], 4⟩, ⟨[], 2⟩, ⟨[7], 2 ^ 16⟩⟩ : Heap).tospace.data.length / 2 ≤
      (⟨⟨[PAIR_HEADER, 0, 0], 4⟩, ⟨[], 4⟩, ⟨[7], 2 ^ 16⟩⟩ : Heap).tospace.cap :=
  ⟨by decide, claimC7 _ _ (by decide)⟩

/-! ## Claim C3: alloc_pair -/

/-- C3: `alloc_pair` runs a collection exactly when the free tospace
space is below `SIZEOF_PAIR` (3 words); in either case it then writes
the pair header, the car and the cdr contiguously at the tospace tail
and pushes one pair-tagged pointer to that header onto the Stack (so
the Stack grows by exactly one entry, and `8 * len + PAIR_TAG` always
carries the pair tag). -/
theorem claimC3 (h : Heap) (car cdr : Nat) :
    (SIZEOF_PAIR ≤ h.tospace.cap - h.tospace.data.length →
      ∃ tc sc, alloc_pair h car cdr =
        some ⟨⟨h.tospace.data ++ [PAIR_HEADER, car, cdr], tc⟩, h.fromspace,
              ⟨h.stack.data ++ [8 * h.tospace.data.length + PAIR_TAG], sc⟩⟩) ∧
    (h.tospace.cap - h.tospace.data.length < SIZEOF_PAIR →
      (collect h = none → alloc_pair h car cdr = none) ∧
      ∀ h1, collect h = some h1 →
        ∃ tc sc, alloc_pair h car cdr =
          some ⟨⟨h1.tospace.data ++ [PAIR_HEADER, car, cdr], tc⟩, h1.fromspace,
                ⟨h1.stack.data ++ [8 * h1.tospace.data.length + PAIR_TAG], sc⟩⟩) ∧
    (∀ n : Nat, tag (8 * n + PAIR_TAG) = PAIR_TAG) := by
  refine ⟨fun h3 => ⟨_, _, alloc_pair_no_collect h car cdr h3⟩,
          fun h3 => ⟨fun hn => ?_,
            fun h1 hc => ⟨_, _, alloc_pair_after_collect h h1 car cdr h3 hc⟩⟩,
          fun n => ?_⟩
  · unfold alloc_pair
    rw [if_pos (by omega), hn]
    rfl
  · simp [tag, PAIR_TAG, Nat.mul_add_mod]

/-- C3 witness: allocating a pair on a fresh 16-word heap takes the
no-collection branch and appends exactly the three pair words and one
pair-tagged stack entry. -/
theorem claimC3_witness :
    SIZEOF_PAIR ≤ (Heap.new 16).tospace.cap - (Heap.new 16).tospace.data.length ∧
    ∃ tc sc, alloc_pair (Heap.new 16) 0 0 =
      some ⟨⟨(Heap.new 16).tospace.data ++ [PAIR_HEADER, 0, 0], tc⟩, (Heap.new 16).fromspace,
            ⟨(Heap.new 16).stack.data ++ [8 * (Heap.new 16).tospace.data.length + PAIR_TAG],
             sc⟩⟩ :=
  ⟨by decide, (claimC3 (Heap.new 16) 0 0).1 (by decide)⟩

/-! ## Claim C5: relocate's copy discipline -/

theorem getD_set_self (l : List Nat) (i x : Nat) (h : i < l.length) :
    (l.set i x).getD i 0 = x := by
  simp [List.getD, List.getElem?_set_self h]

theorem getD_set_ne (l : List Nat) (i j x : Nat) (h : i ≠ j) :
    (l.set i x).getD j 0 = l.getD j 0 := by
  simp [List.getD, List.getElem?_set_ne h]

/-- C5: for an immediate Value `relocate` is a no-op; for a
pointer-tagged Value whose target is not yet moved, the result appends
the alignment-rounded span — read from the *unmodified* source — to the
tospace tail, and only the output state carries the sentinel in the
source header and the forwarded address in the following word; the
reference is replaced by the tail address with its tag bits preserved,
and (in bounds) the copied span is exactly the object's words. -/
theorem claimC5 (cur : Nat) (g : GC) :
    (isPtrTag (tag cur) = false → relocate cur g = (cur, g)) ∧
    (isPtrTag (tag cur) = true →
      g.f.getD (ptrIdx cur) 0 ≠ HEADER_TAG →
      relocate cur g =
        (8 * g.t.length + tag cur,
         ⟨g.t ++ (g.f.drop (ptrIdx cur) ++
             List.replicate (amountToCopy (sizeField (g.f.getD (ptrIdx cur) 0))) 0).take
             (amountToCopy (sizeField (g.f.getD (ptrIdx cur) 0))),
          growAmortized g.tcap g.t.length (amountToCopy (sizeField (g.f.getD (ptrIdx cur) 0))),
          (g.f.set (ptrIdx cur) HEADER_TAG).set (ptrIdx cur + 1)
            (8 * g.t.length + tag cur)⟩) ∧
      tag (8 * g.t.length + tag cur) = tag cur ∧
      ptrIdx (8 * g.t.length + tag cur) = g.t.length ∧
      (ptrIdx cur + amountToCopy (sizeField (g.f.getD (ptrIdx cur) 0)) ≤ g.f.length →
        (g.f.drop (ptrIdx cur) ++
            List.replicate (amountToCopy (sizeField (g.f.getD (ptrIdx cur) 0))) 0).take
            (amountToCopy (sizeField (g.f.getD (ptrIdx cur) 0))) =
          (g.f.drop (ptrIdx cur)).take
            (amountToCopy (sizeField (g.f.getD (ptrIdx cur) 0))))) := by
  refine ⟨fun h1 => relocate_not_ptr cur g h1,
          fun h1 h2 => ⟨relocate_copy cur g h1 h2, ?_, ?_, fun hb => ?_⟩⟩
  · unfold tag; omega
  · unfold ptrIdx tag; omega
  · refine List.take_append_of_le_length ?_
    rw [List.length_drop]
    omega

/-- C5 witness: relocating a pair pointer into a one-object fromspace
copies the three pair words and stamps the source. -/
theorem claimC5_witness :
    isPtrTag (tag 7) = true ∧
    (⟨[], 16, [PAIR_HEADER, 0, 0]⟩ : GC).f.getD (ptrIdx 7) 0 ≠ HEADER_TAG ∧
    relocate 7 ⟨[], 16, [PAIR_HEADER, 0, 0]⟩ =
      (7, ⟨[PAIR_HEADER, 0, 0], 16, [HEADER_TAG, 7, 0]⟩) :=
  ⟨by decide, by decide, by
    have h := (claimC5 7 ⟨[], 16, [PAIR_HEADER, 0, 0]⟩).2 (by decide) (by decide)
    rw [h.1]; decide⟩

/-! ## Claim C6: forwarding idempotence -/

/-- C6: a `relocate` of a reference to an object whose header already
holds the forwarding sentinel returns the Value stored in the following
word and changes nothing; consequently, relocating the same fromspace
object twice via two references yields the identical forwarded target
both times, the second relocation leaving the cycle state untouched. -/
theorem claimC6 :
    (∀ (cur : Nat) (g : GC),
      isPtrTag (tag cur) = true →
      g.f.getD (ptrIdx cur) 0 = HEADER_TAG →
      relocate cur g = (g.f.getD (ptrIdx cur + 1) 0, g)) ∧
    (∀ (cur₁ cur₂ : Nat) (g : GC),
      isPtrTag (tag cur₁) = true → isPtrTag (tag cur₂) = true →
      ptrIdx cur₂ = ptrIdx cur₁ →
      g.f.getD (ptrIdx cur₁) 0 ≠ HEADER_TAG →
      ptrIdx cur₁ + 1 < g.f.length →
      relocate cur₂ (relocate cur₁ g).2 = ((relocate cur₁ g).1, (relocate cur₁ g).2)) := by
  refine ⟨fun cur g h1 h2 => relocate_forwarded cur g h1 h2,
          fun cur₁ cur₂ g h1 h2 hpp hf hb => ?_⟩
  rw [relocate_copy cur₁ g h1 hf]
  have hp : ptrIdx cur₁ < g.f.length := by omega
  have hsent : ((g.f.set (ptrIdx cur₁) HEADER_TAG).set (ptrIdx cur₁ + 1)
      (8 * g.t.length + tag cur₁)).getD (ptrIdx cur₂) 0 = HEADER_TAG := by
    rw [hpp, getD_set_ne _ _ _ _ (by omega), getD_set_self _ _ _ hp]
  rw [relocate_forwarded cur₂ _ h2 hsent]
  have hfwd : ((g.f.set (ptrIdx cur₁) HEADER_TAG).set (ptrIdx cur₁ + 1)
      (8 * g.t.length + tag cur₁)).getD (ptrIdx cur₂ + 1) 0 =
      8 * g.t.length + tag cur₁ := by
    rw [hpp, getD_set_self _ _ _ (by simp; omega)]
  rw [hfwd]

/-- C6 witness: relocating the same pair pointer twice in one cycle
returns the same target and leaves the once-updated state unchanged. -/
theorem claimC6_witness :
    isPtrTag (tag 7) = true ∧
    (⟨[], 16, [PAIR_HEADER, 0, 0]⟩ : GC).f.getD (ptrIdx 7) 0 ≠ HEADER_TAG ∧
    ptrIdx 7 + 1 < (⟨[], 16, [PAIR_HEADER, 0, 0]⟩ : GC).f.length ∧
    relocate 7 (relocate 7 ⟨[], 16, [PAIR_HEADER, 0, 0]⟩).2 =
      ((relocate 7 ⟨[], 16, [PAIR_HEADER, 0, 0]⟩).1,
       (relocate 7 ⟨[], 16, [PAIR_HEADER, 0, 0]⟩).2) :=
  ⟨by decide, by decide, by decide,
   claimC6.2 7 7 ⟨[], 16, [PAIR_HEADER, 0, 0]⟩ (by decide) (by decide) rfl
     (by decide) (by decide)⟩

/-! ## Claim C9: shape preservation of chained pairs -/

theorem chainData_length (k : Nat) : (chainData k).length = 3 * k := by
  induction k with
  | zero => rfl
  | succ n ih => simp [chainData, ih]; omega

theorem fwdData_length (k : Nat) : (fwdData k).length = 3 * k := by
  induction k with
  | zero => rfl
  | succ n ih => simp [fwdData, ih]; omega

theorem chainDataFrom_snoc (m i : Nat) :
    chainDataFrom i (m + 1) =
      chainDataFrom i m ++ [PAIR_HEADER, chainCar (i + m), chainCar (i + m)] := by
  induction m generalizing i with
  | zero => simp [chainDataFrom]
  | succ p ih =>
    rw [chainDataFrom, ih (i + 1), chainDataFrom]
    simp [Nat.add_assoc, Nat.add_comm 1 p]

theorem chainPtrsFrom_snoc (m i : Nat) :
    chainPtrsFrom i (m + 1) =
      chainPtrsFrom i m ++ [8 * (3 * (i + m)) + PAIR_TAG] := by
  induction m generalizing i with
  | zero => simp [chainPtrsFrom]
  | succ p ih =>
    rw [chainPtrsFrom, ih (i + 1), chainPtrsFrom]
    simp [Nat.add_assoc, Nat.add_comm 1 p]

theorem fwdDataFrom_snoc (m j : Nat) :
    fwdDataFrom j (m + 1) =
      fwdDataFrom j m ++
        [HEADER_TAG, 8 * (3 * (j + m)) + PAIR_TAG, chainCar (j + m)] := by
  induction m generalizing j with
  | zero => simp [fwdDataFrom]
  | succ p ih =>
    rw [fwdDataFrom, ih (j + 1), fwdDataFrom]
    simp [Nat.add_assoc, Nat.add_comm 1 p]

theorem chainData_eq_from (m i : Nat) :
    chainData (i + m) = chainData i ++ chainDataFrom i m := by
  induction m with
  | zero => simp [chainDataFrom]
  | succ p ih =>
    rw [show i + (p + 1) = (i + p) + 1 by omega, chainData, ih,
      chainDataFrom_snoc, List.append_assoc]

theorem chainPtrs_eq_from (m i : Nat) :
    chainPtrs (i + m) = chainPtrs i ++ chainPtrsFrom i m := by
  induction m with
  | zero => simp [chainPtrsFrom]
  | succ p ih =>
    rw [show i + (p + 1) = (i + p) + 1 by omega, chainPtrs, ih,
      chainPtrsFrom_snoc, List.append_assoc]

theorem fwdData_eq_from (m j : Nat) :
    fwdData (j + m) = fwdData j ++ fwdDataFrom j m := by
  induction m with
  | zero => simp [fwdDataFrom]
  | succ p ih =>
    rw [show j + (p + 1) = (j + p) + 1 by omega, fwdData, ih,
      fwdDataFrom_snoc, List.append_assoc]

theorem getD_append_at (A B : List Nat) (n r : Nat) (h : A.length = n) :
    (A ++ B).getD (n + r) 0 = B.getD r 0 := by
  subst h; exact getD_append_len A B r

theorem tag_pair_ptr (n : Nat) : tag (8 * n + PAIR_TAG) = PAIR_TAG := by
  unfold tag PAIR_TAG; omega

theorem isPtrTag_pair_ptr (n : Nat) : isPtrTag (tag (8 * n + PAIR_TAG)) = true := by
  rw [tag_pair_ptr]; decide

theorem ptrIdx_pair_ptr (n : Nat) : ptrIdx (8 * n + PAIR_TAG) = n := by
  unfold ptrIdx PAIR_TAG; omega

theorem getD_chainData_hdr (i m : Nat) :
    (chainData (i + m + 1)).getD (3 * i) 0 = PAIR_HEADER := by
  rw [show i + m + 1 = i + (m + 1) by omega, chainData_eq_from,
    show 3 * i = 3 * i + 0 by omega,
    getD_append_at _ _ _ _ (chainData_length i), chainDataFrom]
  simp [List.getD_cons_succ, List.getD_cons_zero]

theorem getD_chainData_car (i m : Nat) :
    (chainData (i + m + 1)).getD (3 * i + 1) 0 = chainCar i := by
  rw [show i + m + 1 = i + (m + 1) by omega, chainData_eq_from,
    getD_append_at _ _ _ _ (chainData_length i), chainDataFrom]
  simp [List.getD_cons_succ, List.getD_cons_zero]

theorem getD_chainData_cdr (i m : Nat) :
    (chainData (i + m + 1)).getD (3 * i + 2) 0 = chainCar i := by
  rw [show i + m + 1 = i + (m + 1) by omega, chainData_eq_from,
    getD_append_at _ _ _ _ (chainData_length i), chainDataFrom]
  simp [List.getD_cons_succ, List.getD_cons_zero]

theorem getD_fwdData_hdr (j m : Nat) :
    (fwdData (j + m + 1)).getD (3 * j) 0 = HEADER_TAG := by
  rw [show j + m + 1 = j + (m + 1) by omega, fwdData_eq_from,
    show 3 * j = 3 * j + 0 by omega,
    getD_append_at _ _ _ _ (fwdData_length j), fwdDataFrom]
  exact List.getD_cons_zero

theorem getD_fwdData_fwd (j m : Nat) :
    (fwdData (j + m + 1)).getD (3 * j + 1) 0 = 8 * (3 * j) + PAIR_TAG := by
  rw [show j + m + 1 = j + (m + 1) by omega, fwdData_eq_from,
    getD_append_at _ _ _ _ (fwdData_length j), fwdDataFrom,
    List.getD_cons_succ, List.getD_cons_zero]

theorem sizeField_PAIR_HEADER : sizeField PAIR_HEADER = 3 := by decide

theorem amountToCopy_three : amountToCopy 3 = 3 := by decide

theorem relocate_chain_root (i p tc : Nat) :
    relocate (8 * (3 * i) + PAIR_TAG)
        ⟨chainData i, tc, fwdData i ++ chainDataFrom i (p + 1)⟩ =
      (8 * (3 * i) + PAIR_TAG,
       ⟨chainData (i + 1), growAmortized tc (3 * i) 3,
        fwdData (i + 1) ++ chainDataFrom (i + 1) p⟩) := by
  have hgd : (fwdData i ++ chainDataFrom i (p + 1)).getD (3 * i) 0 = PAIR_HEADER := by
    rw [show 3 * i = 3 * i + 0 by omega,
      getD_append_at _ _ _ _ (fwdData_length i), chainDataFrom]
    exact List.getD_cons_zero
  have hdrop : (fwdData i ++ chainDataFrom i (p + 1)).drop (3 * i) =
      chainDataFrom i (p + 1) := by
    rw [← fwdData_length i]
    exact List.drop_left _ _
  have h2 := relocate_copy (8 * (3 * i) + PAIR_TAG)
    ⟨chainData i, tc, fwdData i ++ chainDataFrom i (p + 1)⟩
    (isPtrTag_pair_ptr _) (by rw [ptrIdx_pair_ptr, hgd]; decide)
  rw [h2]
  simp only [ptrIdx_pair_ptr, tag_pair_ptr, hgd, sizeField_PAIR_HEADER,
    amountToCopy_three, hdrop, chainData_length]
  have ht : chainData i ++ List.take 3 (chainDataFrom i (p + 1) ++ List.replicate 3 0) =
      chainData (i + 1) := by
    rw [chainDataFrom]
    simp [chainData, List.take_succ_cons]
  have hf : ∀ v : Nat,
      ((fwdData i ++ chainDataFrom i (p + 1)).set (3 * i) HEADER_TAG).set (3 * i + 1) v =
        fwdData i ++ HEADER_TAG :: v :: chainCar i :: chainDataFrom (i + 1) p := by
    intro v
    rw [chainDataFrom,
      show (3 : Nat) * i = (fwdData i).length + 0 by rw [fwdData_length]; omega,
      set_append_len,
      show (fwdData i).length + 0 + 1 = (fwdData i).length + 1 by omega,
      set_append_len]
    simp [List.set]
  have hf2 : fwdData i ++
        HEADER_TAG :: (8 * (3 * i) + PAIR_TAG) :: chainCar i :: chainDataFrom (i + 1) p =
      fwdData (i + 1) ++ chainDataFrom (i + 1) p := by
    simp [fwdData]
  rw [ht, hf _, hf2]

theorem scavange_stack_chain (m : Nat) : ∀ (i tc : Nat),
    ∃ tc', scavange_stack (chainPtrsFrom i m)
        ⟨chainData i, tc, fwdData i ++ chainDataFrom i m⟩ =
      (chainPtrsFrom i m, ⟨chainData (i + m), tc', fwdData (i + m)⟩) := by
  induction m with
  | zero =>
    intro i tc
    exact ⟨tc, by simp [chainPtrsFrom, scavange_stack, chainDataFrom]⟩
  | succ p ih =>
    intro i tc
    obtain ⟨tc', hrest⟩ := ih (i + 1) (growAmortized tc (3 * i) 3)
    refine ⟨tc', ?_⟩
    rw [chainPtrsFrom]
    simp only [scavange_stack, relocate_chain_root i p tc, hrest]
    rw [show i + 1 + p = i + (p + 1) by omega]

theorem relocate_chainCar (i m tc : Nat) :
    relocate (chainCar i) ⟨chainData (i + m + 1), tc, fwdData (i + m + 1)⟩ =
      (chainCar i, ⟨chainData (i + m + 1), tc, fwdData (i + m + 1)⟩) := by
  cases i with
  | zero => exact relocate_not_ptr _ _ (by decide)
  | succ j =>
    have hsent : ((⟨chainData (j + 1 + m + 1), tc, fwdData (j + 1 + m + 1)⟩ : GC)).f.getD
        (ptrIdx (8 * (3 * j) + PAIR_TAG)) 0 = HEADER_TAG := by
      dsimp only
      rw [ptrIdx_pair_ptr, show j + 1 + m + 1 = j + (m + 1) + 1 by omega]
      exact getD_fwdData_hdr j (m + 1)
    rw [show chainCar (j + 1) = 8 * (3 * j) + PAIR_TAG from rfl,
      relocate_forwarded _ _ (isPtrTag_pair_ptr _) hsent]
    dsimp only
    rw [ptrIdx_pair_ptr, show j + 1 + m + 1 = j + (m + 1) + 1 by omega,
      getD_fwdData_fwd j (m + 1)]

theorem relocateChildren_chain (i m tc : Nat) :
    relocateChildren 2 (3 * i + 1)
        ⟨chainData (i + m + 1), tc, fwdData (i + m + 1)⟩ =
      ⟨chainData (i + m + 1), tc, fwdData (i + m + 1)⟩ := by
  have hcar := getD_chainData_car i m
  have hcdr := getD_chainData_cdr i m
  have hset1 : (chainData (i + m + 1)).set (3 * i + 1) (chainCar i) =
      chainData (i + m + 1) := by
    rw [← hcar]; exact set_getD_self _ _
  have hset2 : (chainData (i + m + 1)).set (3 * i + 2) (chainCar i) =
      chainData (i + m + 1) := by
    rw [← hcdr]; exact set_getD_self _ _
  simp only [relocateChildren]
  rw [hcar, relocate_chainCar i m tc]
  dsimp only
  rw [hset1, show (3 : Nat) * i + 1 + 1 = 3 * i + 2 by omega, hcdr,
    relocate_chainCar i m tc]
  dsimp only
  rw [hset2]

theorem leafp_PAIR_HEADER : leafp PAIR_HEADER = false := by decide

theorem scavange_heap_chain (m : Nat) : ∀ (i tc fuel : Nat), m ≤ fuel →
    scavange_heap fuel (3 * i) ⟨chainData (i + m), tc, fwdData (i + m)⟩ =
      some ⟨chainData (i + m), tc, fwdData (i + m)⟩ := by
  induction m with
  | zero =>
    intro i tc fuel _
    cases fuel with
    | zero => simp [scavange_heap, chainData_length]
    | succ fl => simp [scavange_heap, chainData_length]
  | succ p ih =>
    intro i tc fuel hf
    cases fuel with
    | zero => omega
    | succ fl =>
      have hp : p ≤ fl := by omega
      have hhdr := getD_chainData_hdr i p
      have h0 : (chainData (i + p + 1)).getD 0 0 = PAIR_HEADER := by
        have h := getD_chainData_hdr 0 (i + p)
        simpa using h
      have hlen : ¬ ((chainData (i + p + 1)).length ≤ 3 * i) := by
        rw [chainData_length]; omega
      show scavange_heap (fl + 1) (3 * i)
          ⟨chainData (i + p + 1), tc, fwdData (i + p + 1)⟩ = _
      simp only [scavange_heap]
      rw [if_neg hlen, hhdr, sizeField_PAIR_HEADER]
      rw [if_neg (by omega : ¬ (3 : Nat) = 0)]
      rw [h0, leafp_PAIR_HEADER]
      simp only [Bool.false_eq_true, if_false]
      rw [show (3 : Nat) - 1 = 2 by omega, relocateChildren_chain i p tc]
      rw [show (3 : Nat) * i + 3 = 3 * (i + 1) by omega]
      have h := ih (i + 1) tc fl hp
      rw [show i + 1 + p = i + p + 1 by omega] at h
      exact h

theorem chainData_from_zero (k : Nat) : chainDataFrom 0 k = chainData k := by
  have h := chainData_eq_from k 0
  simpa [chainData] using h.symm

theorem chainPtrs_from_zero (k : Nat) : chainPtrsFrom 0 k = chainPtrs k := by
  have h := chainPtrs_eq_from k 0
  simpa [chainPtrs] using h.symm

theorem collect_chain (k tc fc sc : Nat) :
    ∃ tc', collect ⟨⟨chainData k, tc⟩, ⟨[], fc⟩, ⟨chainPtrs k, sc⟩⟩ =
      some ⟨⟨chainData k, tc'⟩, ⟨[], tc⟩, ⟨chainPtrs k, sc⟩⟩ := by
  obtain ⟨tc2, hss⟩ := scavange_stack_chain k 0
    (growAmortized fc 0 ((chainData k).length + (chainData k).length / 2))
  rw [chainPtrs_from_zero] at hss
  have hss' : scavange_stack (chainPtrs k)
      ⟨[], growAmortized fc 0 ((chainData k).length + (chainData k).length / 2),
       chainData k⟩ =
      (chainPtrs k, ⟨chainData k, tc2, fwdData k⟩) := by
    have h0 : (⟨chainData 0, growAmortized fc 0 ((chainData k).length + (chainData k).length / 2),
        fwdData 0 ++ chainDataFrom 0 k⟩ : GC) =
        ⟨[], growAmortized fc 0 ((chainData k).length + (chainData k).length / 2),
         chainData k⟩ := by
      rw [chainData_from_zero]; rfl
    rw [h0] at hss
    simpa using hss
  refine ⟨tc2, ?_⟩
  simp only [collect, List.length_nil]
  rw [hss']
  have hsh := scavange_heap_chain k 0 tc2
    ((chainData k).length + (fwdData k).length + 1)
    (by rw [chainData_length, fwdData_length]; omega)
  simp only [Nat.zero_add, Nat.mul_zero] at hsh
  rw [hsh]
theorem chain_spec (cap n : Nat) :
    ∃ tc fc sc, chainHeap cap n =
      some ⟨⟨chainData (n + 1), tc⟩, ⟨[], fc⟩, ⟨chainPtrs (n + 1), sc⟩⟩ := by
  induction n with
  | zero =>
    show ∃ tc fc sc, alloc_pair (Heap.new cap) 0 0 = _
    by_cases hsp : SIZEOF_PAIR ≤ (Heap.new cap).tospace.cap - (Heap.new cap).tospace.data.length
    · exact ⟨_, _, _, alloc_pair_no_collect (Heap.new cap) 0 0 hsp⟩
    · exact ⟨_, _, _, alloc_pair_after_collect (Heap.new cap) _ 0 0 (by omega)
        (collect_empty_stack (Heap.new cap) rfl)⟩
  | succ p ih =>
    obtain ⟨tc, fc, sc, hh⟩ := ih
    have htop : (chainPtrs (p + 1)).getLastD 0 = 8 * (3 * p) + PAIR_TAG := by
      rw [chainPtrs]; exact List.getLastD_concat _ _ _
    show ∃ tc fc sc, (chainHeap cap p).bind chainStep = _
    rw [hh]
    simp only [chainStep, Option.some_bind]
    rw [htop]
    by_cases hsp : SIZEOF_PAIR ≤ tc - (chainData (p + 1)).length
    · have halloc := alloc_pair_no_collect
        (⟨⟨chainData (p + 1), tc⟩, ⟨[], fc⟩, ⟨chainPtrs (p + 1), sc⟩⟩ : Heap)
        (8 * (3 * p) + PAIR_TAG) (8 * (3 * p) + PAIR_TAG) hsp
      dsimp only at halloc
      rw [chainData_length] at halloc
      exact ⟨_, _, _, halloc⟩
    · obtain ⟨tc2, hcol⟩ := collect_chain (p + 1) tc fc sc
      have halloc := alloc_pair_after_collect
        (⟨⟨chainData (p + 1), tc⟩, ⟨[], fc⟩, ⟨chainPtrs (p + 1), sc⟩⟩ : Heap)
        _ (8 * (3 * p) + PAIR_TAG) (8 * (3 * p) + PAIR_TAG) (by dsimp only; omega) hcol
      dsimp only at halloc
      rw [chainData_length] at halloc
      exact ⟨_, _, _, halloc⟩

theorem chainPtrs_tags (k : Nat) : ∀ v ∈ chainPtrs k, tag v = PAIR_TAG := by
  induction k with
  | zero => intro v hv; simp [chainPtrs] at hv
  | succ p ih =>
    intro v hv
    rw [chainPtrs] at hv
    rcases List.mem_append.mp hv with h | h
    · exact ih v h
    · rw [List.mem_singleton.mp h]
      exact tag_pair_ptr _

/-- C9: for every N and every initial capacity, allocating N chained
pairs after the initial pair (each new pair's car and cdr set to the
previous pair, with any needed automatic collections) and then forcing
an explicit collection yields exactly the chain layout again: every
reachable pair still has header `PAIR_HEADER` with word-count field 3,
every stack entry is pair-tagged, and every pair's car and cdr is
either the immediate zero or a pair-tagged pointer. -/
theorem claimC9 (cap n : Nat) :
    ∃ h', (chainHeap cap n).bind collect = some h' ∧
      h'.tospace.data = chainData (n + 1) ∧
      h'.stack.data = chainPtrs (n + 1) ∧
      (∀ i, i < n + 1 →
        h'.tospace.data.getD (3 * i) 0 = PAIR_HEADER ∧
        sizeField (h'.tospace.data.getD (3 * i) 0) = 3 ∧
        h'.tospace.data.getD (3 * i + 1) 0 = chainCar i ∧
        h'.tospace.data.getD (3 * i + 2) 0 = chainCar i) ∧
      (∀ v ∈ h'.stack.data, tag v = PAIR_TAG) ∧
      (∀ i, i < n + 1 → chainCar i = 0 ∨ tag (chainCar i) = PAIR_TAG) := by
  obtain ⟨tc, fc, sc, hh⟩ := chain_spec cap n
  obtain ⟨tc2, hcol⟩ := collect_chain (n + 1) tc fc sc
  refine ⟨⟨⟨chainData (n + 1), tc2⟩, ⟨[], tc⟩, ⟨chainPtrs (n + 1), sc⟩⟩,
    ?_, rfl, rfl, ?_, ?_, ?_⟩
  · rw [hh]
    simp only [Option.some_bind]
    exact hcol
  · intro i hi
    obtain ⟨m, hm⟩ : ∃ m, n + 1 = i + m + 1 := ⟨n - i, by omega⟩
    dsimp only
    rw [hm]
    exact ⟨getD_chainData_hdr i m,
      by rw [getD_chainData_hdr i m]; exact sizeField_PAIR_HEADER,
      getD_chainData_car i m, getD_chainData_cdr i m⟩
  · dsimp only
    exact chainPtrs_tags (n + 1)
  · intro i _
    cases i with
    | zero => exact Or.inl rfl
    | succ j => exact Or.inr (tag_pair_ptr _)

/-- C9 witness: the chained-pair scenario evaluated at a concrete size:
two chained pairs on top of the initial pair, then a collection. -/
theorem claimC9_witness :
    ∃ h', (chainHeap 16 2).bind collect = some h' ∧
      h'.tospace.data = chainData 3 ∧
      h'.stack.data = chainPtrs 3 ∧
      (∀ i, i < 3 →
        h'.tospace.data.getD (3 * i) 0 = PAIR_HEADER ∧
        sizeField (h'.tospace.data.getD (3 * i) 0) = 3 ∧
        h'.tospace.data.getD (3 * i + 1) 0 = chainCar i ∧
        h'.tospace.data.getD (3 * i + 2) 0 = chainCar i) ∧
      (∀ v ∈ h'.stack.data, tag v = PAIR_TAG) ∧
      (∀ i, i < 3 → chainCar i = 0 ∨ tag (chainCar i) = PAIR_TAG) :=
  claimC9 16 2
